import Mathlib

/-!
Verification of the G2C repository's state store (`src/src/g2c.py`,
class `GameState`) and its validated integer input loop
(`InputHandler.get_number`).

Python objects are modelled by a heap mapping addresses to objects, so
that reference aliasing (Python's `dict.copy()` is shallow) is faithfully
expressible.  A `GameState` holds the address of its current `data` dict
and the list of snapshot addresses in `history`; `set` mutates the dict
object in place at `data`, `save_checkpoint` allocates a fresh shallow
copy of it, and `restore_checkpoint` indexes `history` with Python list
semantics (negative indices count from the end, out-of-range raises
`IndexError`, modelled by `Except.error`).
-/

namespace G2C

/-- Address of a Python object in the heap. -/
abbrev Addr := Nat

/-- A Python object, as far as the state store needs: the `None`
singleton, immutable ints and strings, and the two mutable containers
(lists and string-keyed dicts) whose elements are references. -/
inductive Obj where
  | pyNone
  | int (n : Int)
  | str (s : String)
  | list (elems : List Addr)
  | dict (entries : List (String × Addr))
deriving Repr, DecidableEq

/-- The heap: a store of allocated objects plus the next fresh address.
The most recent write to an address shadows older ones. -/
structure Heap where
  mem : List (Addr × Obj)
  next : Addr
deriving Repr, DecidableEq

/-- Read the object at address `a`. -/
def Heap.lookup (h : Heap) (a : Addr) : Option Obj :=
  (h.mem.find? (fun p => p.1 == a)).map (fun p => p.2)

/-- In-place mutation: overwrite the object at address `a`. -/
def Heap.update (h : Heap) (a : Addr) (o : Obj) : Heap :=
  { h with mem := (a, o) :: h.mem }

/-- Allocate a fresh object, returning its address. -/
def Heap.alloc (h : Heap) (o : Obj) : Addr × Heap :=
  (h.next, { mem := (h.next, o) :: h.mem, next := h.next + 1 })

/-- The initial heap, holding only the `None` singleton at address 0. -/
def Heap.init : Heap :=
  { mem := [(0, Obj.pyNone)], next := 1 }

/-- Address of the `None` singleton, the value Python passes for `get`'s
`default` parameter when the caller omits it. -/
def noneAddr : Addr := 0

/-- Python dict assignment `d[k] = v` on an insertion-ordered entry
list: replace the value of the key in place if present, else append at
the end (dict entry lists never repeat a key). -/
def dictSet : List (String × Addr) → String → Addr → List (String × Addr)
  | [], k, v => [(k, v)]
  | (k', v') :: es, k, v =>
    if k' == k then (k, v) :: es else (k', v') :: dictSet es k v

/-- Python `d.get(k)` on an entry list. -/
def dictGet : List (String × Addr) → String → Option Addr
  | [], _ => none
  | (k', v') :: es, k => if k' == k then some v' else dictGet es k

/-- Entries of the dict object stored at address `a` (empty when the
address does not hold a dict; `GameState` only ever stores dicts
there). -/
def heapDictEntries (h : Heap) (a : Addr) : List (String × Addr) :=
  match h.lookup a with
  | some (Obj.dict es) => es
  | _ => []

/-- State of `class GameState`: `self.data` is (the address of) the
current dict, `self.history` the list of snapshot dict addresses.  The
history list object itself is never aliased by the class, so it is kept
inline. -/
structure GameState where
  data : Addr
  history : List Addr
deriving Repr, DecidableEq

/-- Constructor `GameState.__init__`: `self.data = {}` (a fresh dict),
`self.history = []`. -/
def GameState.init (h : Heap) : GameState × Heap :=
  let (a, h') := h.alloc (Obj.dict [])
  ({ data := a, history := [] }, h')

/-- Method `set(self, key, value)`: `self.data[key] = value`, mutating
the dict object at `self.data` in place. -/
def GameState.set (s : GameState) (h : Heap) (key : String) (value : Addr) :
    GameState × Heap :=
  (s, h.update s.data (Obj.dict (dictSet (heapDictEntries h s.data) key value)))

/-- Method `get(self, key, default=None)`: `return self.data.get(key,
default)` — returns the value and leaves state and heap untouched.  A
call that omits `default` passes `noneAddr`. -/
def GameState.get (s : GameState) (h : Heap) (key : String)
    (default : Addr) : Addr × GameState × Heap :=
  ((dictGet (heapDictEntries h s.data) key).getD default, s, h)

/-- Method `save_checkpoint(self)`:
`self.history.append(self.data.copy())` — `dict.copy()` is shallow: a
fresh dict object with the same entry list, so the value addresses are
shared with the live dict. -/
def GameState.save_checkpoint (s : GameState) (h : Heap) : GameState × Heap :=
  let (a, h') := h.alloc (Obj.dict (heapDictEntries h s.data))
  ({ s with history := s.history ++ [a] }, h')

/-- Python list subscript `xs[i]`: negative indices count from the end;
`none` models an `IndexError`. -/
def pyListGet {α : Type} (xs : List α) (i : Int) : Option α :=
  let j := if i < 0 then i + (xs.length : Int) else i
  if j < 0 then none else xs.get? j.toNat

/-- Method `restore_checkpoint(self, index=-1)`: `if self.history:
self.data = self.history[index].copy()` — a no-op on empty history; on
non-empty history an out-of-range index raises `IndexError`, otherwise
`self.data` is rebound to a fresh shallow copy of the chosen snapshot.
A call that omits `index` passes `-1`. -/
def GameState.restore_checkpoint (s : GameState) (h : Heap)
    (index : Int) : Except String (GameState × Heap) :=
  if s.history.isEmpty then .ok (s, h)
  else
    match pyListGet s.history index with
    | none => .error "IndexError"
    | some a =>
      let (a', h') := h.alloc (Obj.dict (heapDictEntries h a))
      .ok ({ s with data := a' }, h')

/-- Apply a sequence of `set` calls in order. -/
def applySets (s : GameState) (h : Heap) :
    List (String × Addr) → GameState × Heap
  | [] => (s, h)
  | (k, v) :: rest =>
    let (s', h') := s.set h k v
    applySets s' h' rest

/-- Well-formedness: the current dict and every snapshot live at
already-allocated addresses, and no snapshot aliases the current dict.
`GameState.init` establishes it and every method preserves it. -/
def GameState.WF (s : GameState) (h : Heap) : Prop :=
  s.data < h.next ∧ ∀ a ∈ s.history, a < h.next ∧ a ≠ s.data

instance (s : GameState) (h : Heap) : Decidable (s.WF h) := by
  unfold GameState.WF; infer_instance

instance {ε α : Type} [DecidableEq ε] [DecidableEq α] :
    DecidableEq (Except ε α)
  | .error a, .error b =>
    if h : a = b then .isTrue (by rw [h])
    else .isFalse (by intro hc; injection hc; contradiction)
  | .error _, .ok _ => .isFalse (by intro hc; cases hc)
  | .ok _, .error _ => .isFalse (by intro hc; cases hc)
  | .ok a, .ok b =>
    if h : a = b then .isTrue (by rw [h])
    else .isFalse (by intro hc; injection hc; contradiction)

/-- Strip leading and trailing whitespace from a character list. -/
def stripChars (cs : List Char) : List Char :=
  ((cs.dropWhile (fun c => c.isWhitespace)).reverse.dropWhile
    (fun c => c.isWhitespace)).reverse

/-- Python `int(line)` on a decimal string: strip surrounding
whitespace, allow one optional sign, then digits only; `none` models a
`ValueError`. -/
def pyParseInt (s : String) : Option Int :=
  match stripChars s.toList with
  | [] => none
  | c :: rest =>
    let (sign, digits) :=
      if c = '-' then ((-1 : Int), rest)
      else if c = '+' then ((1 : Int), rest)
      else ((1 : Int), c :: rest)
    if digits ≠ [] ∧ digits.all (fun d => d.isDigit) then
      some (sign * (digits.foldl (fun acc d => acc * 10 + (d.toNat - 48)) 0 : Nat))
    else none

/-- Static method `InputHandler.get_number(prompt, min_val, max_val)`
over a finite stream of input lines: loop until a line parses as an int
and passes both optional bound checks, consuming rejected lines; `none`
when the stream runs out (Python would block or raise `EOFError`). -/
def get_number (min_val max_val : Option Int) : List String → Option Int
  | [] => none
  | line :: rest =>
    match pyParseInt line with
    | none => get_number min_val max_val rest
    | some value =>
      if min_val.any (fun m => decide (value < m)) then
        get_number min_val max_val rest
      else if max_val.any (fun m => decide (m < value)) then
        get_number min_val max_val rest
      else
        some value

/-- The spec's worked example: `set("score", 1000)`, `save_checkpoint()`,
`set("score", 2000)`, starting from a fresh `GameState`. -/
def ex0 : GameState × Heap :=
  let (s, h) := GameState.init Heap.init
  let (a1, h1) := h.alloc (Obj.int 1000)
  let (s2, h2) := s.set h1 "score" a1
  let (s3, h3) := s2.save_checkpoint h2
  let (a2, h4) := h3.alloc (Obj.int 2000)
  s3.set h4 "score" a2

/-- The state component of `ex0`. -/
def ex0s : GameState := ex0.1

/-- The heap component of `ex0`. -/
def ex0h : Heap := ex0.2

/-- A state whose current dict binds a key to a nested mutable list:
`set("inventory", [])` on a fresh `GameState`. -/
def ex7 : GameState × Heap :=
  let (s, h) := GameState.init Heap.init
  let (a, h1) := h.alloc (Obj.list [])
  s.set h1 "inventory" a

/-- The state component of `ex7`. -/
def ex7s : GameState := ex7.1

/-- The heap component of `ex7`. -/
def ex7h : Heap := ex7.2

/-!  Basic lemmas about the heap and dict primitives. -/

theorem lookup_update_self (h : Heap) (a : Addr) (o : Obj) :
    (h.update a o).lookup a = some o := by
  simp [Heap.lookup, Heap.update, List.find?]

theorem lookup_update_ne (h : Heap) (a b : Addr) (o : Obj) (hne : b ≠ a) :
    (h.update a o).lookup b = h.lookup b := by
  have hab : (a == b) = false := by
    simp [Ne.symm hne]
  simp [Heap.lookup, Heap.update, List.find?, hab]

theorem heapDictEntries_eq_of_lookup (h1 h2 : Heap) (a : Addr)
    (hl : h1.lookup a = h2.lookup a) :
    heapDictEntries h1 a = heapDictEntries h2 a := by
  unfold heapDictEntries
  rw [hl]

theorem heapDictEntries_update_self (h : Heap) (a : Addr)
    (es : List (String × Addr)) :
    heapDictEntries (h.update a (Obj.dict es)) a = es := by
  unfold heapDictEntries
  rw [lookup_update_self]

theorem dictGet_dictSet_self (es : List (String × Addr)) (k : String)
    (v : Addr) :
    dictGet (dictSet es k v) k = some v := by
  induction es with
  | nil => simp [dictSet, dictGet]
  | cons p es ih =>
    obtain ⟨k', v'⟩ := p
    by_cases hk : k' = k
    · simp [dictSet, dictGet, hk]
    · simp [dictSet, dictGet, hk, ih]

/-- C1: after `set(k, v)`, `get(k)` returns `v`, whatever the prior
contents of the current mapping (and of the heap) were. -/
theorem get_after_set (s : GameState) (h : Heap) (k : String) (v d : Addr) :
    (((s.set h k v).1).get (s.set h k v).2 k d).1 = v := by
  simp [GameState.set, GameState.get, heapDictEntries_update_self,
    dictGet_dictSet_self]

/-- C4: with empty history, `restore_checkpoint` is a no-op for every
index: the state and the heap are returned unchanged and no error is
raised. -/
theorem restore_empty_history_noop (s : GameState) (h : Heap) (i : Int)
    (hemp : s.history = []) :
    s.restore_checkpoint h i = .ok (s, h) := by
  simp [GameState.restore_checkpoint, hemp]

/-- Witness for C4 at a concrete state with empty history. -/
theorem restore_empty_history_noop_witness :
    ex7s.restore_checkpoint ex7h 3 = .ok (ex7s, ex7h) :=
  restore_empty_history_noop ex7s ex7h 3 (by decide)

/-- C6: `get` on an unset key returns the caller-supplied default and
touches neither the state nor the heap; with the default argument
omitted Python passes `None`, so the `None` reference comes back. -/
theorem get_unset_returns_default (s : GameState) (h : Heap) (k : String)
    (d : Addr)
    (hunset : dictGet (heapDictEntries h s.data) k = none) :
    s.get h k d = (d, s, h) ∧ (s.get h k noneAddr).1 = noneAddr := by
  simp [GameState.get, hunset]

theorem pyListGet_neg_one {α : Type} (xs : List α) :
    pyListGet xs (-1) = xs.getLast? := by
  unfold pyListGet
  cases xs with
  | nil => simp
  | cons x t =>
    have hj : (if (-1 : Int) < 0 then -1 + ((x :: t).length : Int) else -1)
        = (t.length : Int) := by
      rw [if_pos (by norm_num : (-1 : Int) < 0)]
      push_cast [List.length_cons]
      ring
    rw [hj]
    have hnn : ¬ ((t.length : Int) < 0) := by omega
    rw [if_neg hnn, List.getLast?_eq_getElem?]
    simp [List.get?_eq_getElem?]

theorem pyListGet_in_range {α : Type} (xs : List α) (i : Int)
    (h1 : -(xs.length : Int) ≤ i) (h2 : i < (xs.length : Int)) :
    ∃ a, pyListGet xs i = some a := by
  unfold pyListGet
  by_cases hi : i < 0
  · have hj : ¬ (i + (xs.length : Int) < 0) := by omega
    rw [if_pos hi, if_neg hj]
    have hlt : (i + (xs.length : Int)).toNat < xs.length := by omega
    exact ⟨_, List.get?_eq_get hlt⟩
  · have hj : ¬ (i < 0) := hi
    rw [if_neg hj, if_neg hj]
    have hlt : i.toNat < xs.length := by omega
    exact ⟨_, List.get?_eq_get hlt⟩

theorem heapDictEntries_alloc_dict (h : Heap) (es : List (String × Addr)) :
    heapDictEntries ((h.alloc (Obj.dict es)).2) (h.alloc (Obj.dict es)).1
      = es := by
  simp [heapDictEntries, Heap.alloc, Heap.lookup, List.find?]

theorem restore_neg_one_spec (s : GameState) (h : Heap)
    (hne : s.history ≠ []) :
    ∃ a s' h', s.history.getLast? = some a ∧
      s.restore_checkpoint h (-1) = .ok (s', h') ∧
      s'.history = s.history ∧
      heapDictEntries h' s'.data = heapDictEntries h a := by
  obtain ⟨a, ha⟩ : ∃ a, s.history.getLast? = some a :=
    Option.isSome_iff_exists.mp (List.getLast?_isSome.mpr hne)
  refine ⟨a, { s with data := h.next },
    (h.alloc (Obj.dict (heapDictEntries h a))).2, ha, ?_, rfl, ?_⟩
  · have hemp : s.history.isEmpty = false := by
      simp [List.isEmpty_iff, hne]
    simp [GameState.restore_checkpoint, hemp, pyListGet_neg_one, ha, Heap.alloc]
  · exact heapDictEntries_alloc_dict h (heapDictEntries h a)

/-- C3: on non-empty history, `restore_checkpoint` with the default
index `-1` restores the most recently saved snapshot (negative indices
count from the end), after which every `get` returns exactly that
snapshot's value for the requested key.  The spec's worked example is
the witness below. -/
theorem restore_default_restores_last (s : GameState) (h : Heap)
    (hne : s.history ≠ []) :
    ∃ a s' h', s.history.getLast? = some a ∧
      s.restore_checkpoint h (-1) = .ok (s', h') ∧
      ∀ k d, (s'.get h' k d).1 = (dictGet (heapDictEntries h a) k).getD d := by
  obtain ⟨a, s', h', ha, hres, _, hent⟩ := restore_neg_one_spec s h hne
  exact ⟨a, s', h', ha, hres, fun k d => by simp [GameState.get, hent]⟩

/-- Witness for C3: the spec's example run `set("score", 1000)`,
`save_checkpoint()`, `set("score", 2000)`, then restore — `get("score")`
yields the snapshot's value, the reference to the int 1000. -/
theorem restore_default_restores_last_witness :
    ∃ a s' h', ex0s.history.getLast? = some a ∧
      ex0s.restore_checkpoint ex0h (-1) = .ok (s', h') ∧
      ∀ k d, (s'.get h' k d).1 = (dictGet (heapDictEntries ex0h a) k).getD d :=
  restore_default_restores_last ex0s ex0h (by decide)

/-- Counterexample to C5: on a state with one saved snapshot,
`restore_checkpoint(5)` raises `IndexError` — the operation is not
total in the index. -/
theorem restore_out_of_range_errors :
    ex0s.restore_checkpoint ex0h 5 = .error "IndexError" := rfl

/-- C5 (amended): `set`, `get` and `save_checkpoint` are total, and
`restore_checkpoint` returns without error whenever the history is
empty or the index is in Python range (`-len ≤ index < len`); for
non-empty history an out-of-range index raises `IndexError`. -/
theorem restore_total_in_range (s : GameState) (h : Heap) (i : Int)
    (hok : s.history = [] ∨
      (-(s.history.length : Int) ≤ i ∧ i < (s.history.length : Int))) :
    ∃ p, s.restore_checkpoint h i = .ok p := by
  rcases hok with hemp | ⟨h1, h2⟩
  · exact ⟨(s, h), by simp [GameState.restore_checkpoint, hemp]⟩
  · by_cases hemp : s.history.isEmpty
    · exact ⟨(s, h), by simp [GameState.restore_checkpoint, hemp]⟩
    · obtain ⟨a, ha⟩ := pyListGet_in_range s.history i h1 h2
      refine ⟨({ s with data := h.next },
        (h.alloc (Obj.dict (heapDictEntries h a))).2), ?_⟩
      simp [GameState.restore_checkpoint, hemp, ha, Heap.alloc]

/-- Witness for the amended C5 at a concrete in-range call. -/
theorem restore_total_in_range_witness :
    ∃ p, ex0s.restore_checkpoint ex0h (-1) = .ok p :=
  restore_total_in_range ex0s ex0h (-1) (by decide)

/-- C8: `save_checkpoint()` immediately followed by
`restore_checkpoint()` leaves the current mapping extensionally equal to
what it was before the two calls. -/
theorem save_restore_roundtrip (s : GameState) (h : Heap) :
    ∃ s₂ h₂,
      ((s.save_checkpoint h).1).restore_checkpoint
        (s.save_checkpoint h).2 (-1) = .ok (s₂, h₂) ∧
      ∀ k, dictGet (heapDictEntries h₂ s₂.data) k
        = dictGet (heapDictEntries h s.data) k := by
  have hne : (s.save_checkpoint h).1.history ≠ [] := by
    show s.history ++ [h.next] ≠ []
    simp
  obtain ⟨a, s₂, h₂, ha, hres, _, hent⟩ :=
    restore_neg_one_spec (s.save_checkpoint h).1 (s.save_checkpoint h).2 hne
  have ha' : a = h.next := by
    rw [show (s.save_checkpoint h).1.history = s.history ++ [h.next] from rfl,
      List.getLast?_concat] at ha
    exact (Option.some.inj ha).symm
  have hsnap : heapDictEntries (s.save_checkpoint h).2 h.next
      = heapDictEntries h s.data :=
    heapDictEntries_alloc_dict h (heapDictEntries h s.data)
  refine ⟨s₂, h₂, hres, fun k => ?_⟩
  rw [hent, ha', hsnap]

theorem lookup_alloc_ne (h : Heap) (o : Obj) (b : Addr) (hb : b ≠ h.next) :
    ((h.alloc o).2).lookup b = h.lookup b := by
  have hf : (h.next == b) = false := by simp [Ne.symm hb]
  simp [Heap.alloc, Heap.lookup, List.find?, hf]

theorem heapDictEntries_save (s : GameState) (h : Heap) :
    heapDictEntries ((s.save_checkpoint h).2) h.next
      = heapDictEntries h s.data :=
  heapDictEntries_alloc_dict h (heapDictEntries h s.data)

theorem heapDictEntries_save_data (s : GameState) (h : Heap) :
    heapDictEntries ((s.save_checkpoint h).2) s.data
      = heapDictEntries h s.data := by
  by_cases hsd : s.data = h.next
  · conv_lhs => rw [hsd]
    exact heapDictEntries_save s h
  · exact heapDictEntries_eq_of_lookup _ _ _ (lookup_alloc_ne h _ s.data hsd)

theorem applySets_fst (s : GameState) (h : Heap)
    (ops : List (String × Addr)) :
    (applySets s h ops).1 = s := by
  induction ops generalizing h with
  | nil => rfl
  | cons p rest ih =>
    obtain ⟨k, v⟩ := p
    exact ih _

theorem applySets_lookup_ne (s : GameState) (h : Heap)
    (ops : List (String × Addr)) (a : Addr) (ha : a ≠ s.data) :
    (applySets s h ops).2.lookup a = h.lookup a := by
  induction ops generalizing h with
  | nil => rfl
  | cons p rest ih =>
    obtain ⟨k, v⟩ := p
    calc (applySets s h ((k, v) :: rest)).2.lookup a
        = (h.update s.data
            (Obj.dict (dictSet (heapDictEntries h s.data) k v))).lookup a :=
          ih _
      _ = h.lookup a := lookup_update_ne _ _ _ _ ha

/-!  `GameState.WF` holds for every reachable state: the constructor
establishes it and each method preserves it. -/

theorem wf_init (h : Heap) : ((GameState.init h).1).WF (GameState.init h).2 := by
  refine ⟨?_, by simp [GameState.init, Heap.alloc]⟩
  show h.next < h.next + 1
  exact Nat.lt_succ_self _

theorem wf_set (s : GameState) (h : Heap) (k : String) (v : Addr)
    (hwf : s.WF h) : ((s.set h k v).1).WF (s.set h k v).2 := hwf

theorem wf_save (s : GameState) (h : Heap) (hwf : s.WF h) :
    ((s.save_checkpoint h).1).WF (s.save_checkpoint h).2 := by
  obtain ⟨hd, hh⟩ := hwf
  refine ⟨?_, ?_⟩
  · show s.data < h.next + 1
    exact Nat.lt_succ_of_lt hd
  · intro a ha
    rw [show (s.save_checkpoint h).1.history = s.history ++ [h.next]
      from rfl] at ha
    show a < h.next + 1 ∧ a ≠ s.data
    rcases List.mem_append.mp ha with ha | ha
    · obtain ⟨h1, h2⟩ := hh a ha
      exact ⟨Nat.lt_succ_of_lt h1, h2⟩
    · rw [List.mem_singleton] at ha
      subst ha
      exact ⟨Nat.lt_succ_self _, Nat.ne_of_gt hd⟩

theorem wf_restore (s : GameState) (h : Heap) (i : Int)
    (s' : GameState) (h' : Heap) (hwf : s.WF h)
    (hres : s.restore_checkpoint h i = .ok (s', h')) : s'.WF h' := by
  obtain ⟨hd, hh⟩ := hwf
  unfold GameState.restore_checkpoint at hres
  by_cases hemp : s.history.isEmpty
  · rw [if_pos hemp] at hres
    obtain ⟨rfl, rfl⟩ := Prod.mk.injEq .. ▸ Except.ok.inj hres
    exact ⟨hd, hh⟩
  · rw [if_neg hemp] at hres
    cases hpl : pyListGet s.history i with
    | none =>
      rw [hpl] at hres
      exact absurd hres (by simp)
    | some a =>
      rw [hpl] at hres
      obtain ⟨rfl, rfl⟩ := Prod.mk.injEq .. ▸ Except.ok.inj hres
      refine ⟨?_, ?_⟩
      · show h.next < h.next + 1
        exact Nat.lt_succ_self _
      · intro b hb
        obtain ⟨h1, _⟩ := hh b hb
        show b < h.next + 1 ∧ b ≠ h.next
        exact ⟨Nat.lt_succ_of_lt h1, Nat.ne_of_lt h1⟩

/-- C2: once `save_checkpoint()` has run, no subsequent sequence of
`set` calls changes the top-level key-to-value bindings of any stored
history entry: snapshots are copy-on-snapshot. -/
theorem snapshot_immutable_under_sets (s : GameState) (h : Heap)
    (hwf : s.WF h) (ops : List (String × Addr)) :
    ∀ a ∈ (s.save_checkpoint h).1.history, ∀ k,
      dictGet (heapDictEntries
        (applySets (s.save_checkpoint h).1 (s.save_checkpoint h).2 ops).2 a) k
      = dictGet (heapDictEntries (s.save_checkpoint h).2 a) k := by
  intro a hmem k
  have hane : a ≠ (s.save_checkpoint h).1.data := by
    show a ≠ s.data
    rw [show (s.save_checkpoint h).1.history = s.history ++ [h.next]
      from rfl] at hmem
    rcases List.mem_append.mp hmem with hmem | hmem
    · exact (hwf.2 a hmem).2
    · rw [List.mem_singleton] at hmem
      subst hmem
      exact Nat.ne_of_gt hwf.1
  rw [heapDictEntries_eq_of_lookup _ _ _
    (applySets_lookup_ne _ _ ops a hane)]

/-- Witness for C2: after the worked example's save (its snapshot lands
at address 5), a further `set` leaves the snapshot's "score" binding
unchanged. -/
theorem snapshot_immutable_under_sets_witness :
    dictGet (heapDictEntries
      (applySets (ex0s.save_checkpoint ex0h).1 (ex0s.save_checkpoint ex0h).2
        [("gold", 2)]).2 5) "score"
    = dictGet (heapDictEntries (ex0s.save_checkpoint ex0h).2 5) "score" :=
  snapshot_immutable_under_sets ex0s ex0h (by decide) [("gold", 2)] 5
    (by decide) "score"

/-- C7: `save_checkpoint` copies shallowly: a key bound to a nested
mutable object keeps the same reference in the snapshot as in the live
mapping, so an in-place mutation of that object through the live
mapping is visible through the snapshot as well. -/
theorem save_shallow_aliases_nested (s : GameState) (h : Heap) (k : String)
    (r : Addr) (o : Obj)
    (hr : dictGet (heapDictEntries h s.data) k = some r)
    (hlt : r < h.next) (hnd : r ≠ s.data) :
    ∃ a, (s.save_checkpoint h).1.history.getLast? = some a ∧
      dictGet (heapDictEntries (s.save_checkpoint h).2 a) k = some r ∧
      dictGet (heapDictEntries (s.save_checkpoint h).2
        (s.save_checkpoint h).1.data) k = some r ∧
      ((((s.save_checkpoint h).2).update r o).lookup r = some o ∧
       dictGet (heapDictEntries (((s.save_checkpoint h).2).update r o) a) k
         = some r ∧
       dictGet (heapDictEntries (((s.save_checkpoint h).2).update r o)
         (s.save_checkpoint h).1.data) k = some r) := by
  have hd : (s.save_checkpoint h).1.data = s.data := rfl
  refine ⟨h.next, List.getLast?_concat s.history, ?_, ?_,
    lookup_update_self _ _ _, ?_, ?_⟩
  · rw [heapDictEntries_save]
    exact hr
  · rw [hd, heapDictEntries_save_data]
    exact hr
  · rw [heapDictEntries_eq_of_lookup _ _ _
      (lookup_update_ne _ _ _ _ (Nat.ne_of_gt hlt)), heapDictEntries_save]
    exact hr
  · rw [hd, heapDictEntries_eq_of_lookup _ _ _
      (lookup_update_ne _ _ _ _ (Ne.symm hnd)), heapDictEntries_save_data]
    exact hr

/-- Witness for C7: a state whose dict binds "inventory" to an empty
list; after a snapshot, replacing that list in place with another list
is visible through both the snapshot and the live mapping. -/
theorem save_shallow_aliases_nested_witness :
    ∃ a, (ex7s.save_checkpoint ex7h).1.history.getLast? = some a ∧
      dictGet (heapDictEntries (ex7s.save_checkpoint ex7h).2 a) "inventory"
        = some 2 ∧
      dictGet (heapDictEntries (ex7s.save_checkpoint ex7h).2
        (ex7s.save_checkpoint ex7h).1.data) "inventory" = some 2 ∧
      ((((ex7s.save_checkpoint ex7h).2).update 2 (Obj.list [0])).lookup 2
          = some (Obj.list [0]) ∧
       dictGet (heapDictEntries (((ex7s.save_checkpoint ex7h).2).update 2
         (Obj.list [0])) a) "inventory" = some 2 ∧
       dictGet (heapDictEntries (((ex7s.save_checkpoint ex7h).2).update 2
         (Obj.list [0])) (ex7s.save_checkpoint ex7h).1.data) "inventory"
         = some 2) :=
  save_shallow_aliases_nested ex7s ex7h "inventory" 2 (Obj.list [0])
    (by decide) (by decide) (by decide)

/-- C9: `set` and `get` leave the history untouched, `save_checkpoint`
appends exactly one entry at the end keeping all prior entries, and a
`restore_checkpoint` that succeeds leaves the history unchanged — the
restored snapshot is not removed. -/
theorem history_frame (s : GameState) (h : Heap) (i : Int)
    (s' : GameState) (h' : Heap)
    (hres : s.restore_checkpoint h i = .ok (s', h')) :
    (∀ k v, ((s.set h k v).1).history = s.history) ∧
    (∀ k d, ((s.get h k d).2.1).history = s.history) ∧
    ((s.save_checkpoint h).1).history = s.history ++ [h.next] ∧
    s'.history = s.history := by
  refine ⟨fun k v => rfl, fun k d => rfl, rfl, ?_⟩
  unfold GameState.restore_checkpoint at hres
  by_cases hemp : s.history.isEmpty
  · rw [if_pos hemp] at hres
    obtain ⟨rfl, rfl⟩ := Prod.mk.injEq .. ▸ Except.ok.inj hres
    rfl
  · rw [if_neg hemp] at hres
    cases hpl : pyListGet s.history i with
    | none =>
      rw [hpl] at hres
      exact absurd hres (by simp)
    | some a =>
      rw [hpl] at hres
      obtain ⟨rfl, rfl⟩ := Prod.mk.injEq .. ▸ Except.ok.inj hres
      rfl

/-- Witness for C9 at a concrete state and a concrete successful
restore. -/
theorem history_frame_witness :
    (∀ k v, ((ex0s.set ex0h k v).1).history = ex0s.history) ∧
    (∀ k d, ((ex0s.get ex0h k d).2.1).history = ex0s.history) ∧
    ((ex0s.save_checkpoint ex0h).1).history = ex0s.history ++ [ex0h.next] ∧
    GameState.history { data := 5, history := [3] } = ex0s.history :=
  history_frame ex0s ex0h (-1) { data := 5, history := [3] }
    { mem := (5, Obj.dict [("score", 2)]) :: ex0h.mem, next := 6 } (by decide)

/-- C10: whenever `get_number` returns on a finite input stream, the
returned value parses from one of the stream's lines and satisfies
every supplied bound; lines failing the parse or a bound check are
consumed, never returned. -/
theorem get_number_in_bounds (min_val max_val : Option Int)
    (lines : List String) (v : Int)
    (hret : get_number min_val max_val lines = some v) :
    (∀ m, min_val = some m → m ≤ v) ∧ (∀ m, max_val = some m → v ≤ m) ∧
    ∃ line ∈ lines, pyParseInt line = some v := by
  induction lines with
  | nil => exact absurd hret (by simp [get_number])
  | cons line rest ih =>
    cases hp : pyParseInt line with
    | none =>
      simp only [get_number, hp] at hret
      obtain ⟨h1, h2, l, hl, hpl⟩ := ih hret
      exact ⟨h1, h2, l, List.mem_cons_of_mem _ hl, hpl⟩
    | some value =>
      simp only [get_number, hp] at hret
      by_cases hmin : min_val.any (fun m => decide (value < m))
      · rw [if_pos hmin] at hret
        obtain ⟨h1, h2, l, hl, hpl⟩ := ih hret
        exact ⟨h1, h2, l, List.mem_cons_of_mem _ hl, hpl⟩
      · rw [if_neg hmin] at hret
        by_cases hmax : max_val.any (fun m => decide (m < value))
        · rw [if_pos hmax] at hret
          obtain ⟨h1, h2, l, hl, hpl⟩ := ih hret
          exact ⟨h1, h2, l, List.mem_cons_of_mem _ hl, hpl⟩
        · rw [if_neg hmax] at hret
          obtain rfl : value = v := Option.some.inj hret
          refine ⟨?_, ?_, line, List.mem_cons_self _ _, hp⟩
          · intro m hm
            subst hm
            simp [Option.any] at hmin
            omega
          · intro m hm
            subst hm
            simp [Option.any] at hmax
            omega

/-- Witness for C10 on a concrete stream with bounds 1 and 10: the bad
lines "abc", "0" and "99" are consumed and 7 is returned. -/
theorem get_number_in_bounds_witness :
    (∀ m, (some 1 : Option Int) = some m → m ≤ 7) ∧
    (∀ m, (some 10 : Option Int) = some m → (7 : Int) ≤ m) ∧
    ∃ line ∈ (["abc", "0", "99", "7"] : List String),
      pyParseInt line = some 7 :=
  get_number_in_bounds (some 1) (some 10) ["abc", "0", "99", "7"] 7
    (by decide)

/-- Witness for C6 at a concrete state where the key is unset. -/
theorem get_unset_returns_default_witness :
    ex7s.get ex7h "gold" 9 = (9, ex7s, ex7h) ∧
    (ex7s.get ex7h "gold" noneAddr).1 = noneAddr :=
  get_unset_returns_default ex7s ex7h "gold" 9 (by decide)

end G2C
